import Mathlib

/-!
Verification of the `wangler` CLI wrapper (src/src/index.ts).

The development shallowly embeds the program's environment-variable
resolution pipeline: JavaScript `Record<string, string>` objects become
association lists with insertion-order semantics (`EnvMap`, `setVar`,
`mergeEnv` for object spread), the `--penv` extraction loop becomes
`extractPenvAux`, the layered dotenv loader becomes `loadEnvFiles` with its
file-system and `path` collaborators abstracted into a `Collab` record, and
the top-level dispatcher becomes `wangler`.  `JSON.stringify` on strings is
embedded as `jsonStringify`; JSON string-literal decoding (a collaborator,
`JSON.parse`) is modelled from the JSON grammar as `jsonParseStringLit`.
-/

/-- A JavaScript `Record<string, string>` embedded as an association list in
insertion order.  Keys are unique in every map the program builds. -/
abbrev EnvMap := List (String × String)

/-- First-occurrence lookup in an association list; on the unique-key maps
the program builds this is JavaScript property lookup. -/
def lookupE : EnvMap → String → Option String
  | [], _ => none
  | p :: rest, k => if k = p.1 then some p.2 else lookupE rest k

/-- The keys of a mapping, in order. -/
def keysOf (m : EnvMap) : List String := m.map Prod.fst

/-- JavaScript property assignment `obj[k] = v`: update the first binding of
`k` in place, or append a fresh binding at the end. -/
def setVar : EnvMap → String → String → EnvMap
  | [], k, v => [(k, v)]
  | p :: rest, k, v => if p.1 = k then (k, v) :: rest else p :: setVar rest k v

/-- JavaScript object spread of two objects into a literal,
`\x7b...a, ...b\x7d`: start from `a` and assign every binding of `b` in
order (later sources win on key collision). -/
def mergeEnv (a b : EnvMap) : EnvMap :=
  b.foldl (fun acc p => setVar acc p.1 p.2) a

/-- `getEnvFromArgs` (src/src/index.ts lines 8-14): value following the
first `--env` token, if any. -/
def getEnvFromArgs : List String → Option String
  | "--env" :: v :: _ => some v
  | _ :: rest => getEnvFromArgs rest
  | [] => none

/-- `getEnvFilePath` (src/src/index.ts lines 17-23): value following the
first `--env-file` token, if any. -/
def getEnvFilePath : List String → Option String
  | "--env-file" :: v :: _ => some v
  | _ :: rest => getEnvFilePath rest
  | [] => none

/-- Split a character list at the first colon, mirroring
`keyValue.indexOf(":")` / `slice` in src/src/index.ts lines 37-42:
`some (key, value)` when a colon occurs, `none` otherwise. -/
def splitFirstColon : List Char → Option (List Char × List Char)
  | [] => none
  | c :: rest =>
    if c = ':' then some ([], rest)
    else (fun p => (c :: p.1, p.2)) <$> splitFirstColon rest

/-- The warning of src/src/index.ts lines 52-54 for a bare `--penv` key
absent from the ambient environment. -/
def penvWarn (keyValue : String) : String :=
  "Warning: Environment variable " ++ keyValue ++ " not found in process.env"

/-- The state threaded through the extraction loop of `extractPenvArgs`:
the override mapping, the residual argument list, and the warnings emitted
so far (`console.warn` instrumented as a list). -/
structure ExtractResult where
  envVars : EnvMap
  remainingArgs : List String
  warnings : List String
deriving DecidableEq, Repr

/-- Processing of one `--penv` value token (src/src/index.ts lines 36-56):
on `key:value` record the pair when both parts are non-empty (JavaScript
truthiness of strings); on a bare key resolve it against the ambient
environment, warning when absent. -/
def processPenv (env : String → Option String) (acc : ExtractResult)
    (keyValue : String) : ExtractResult :=
  match splitFirstColon keyValue.data with
  | some (k, v) =>
    if k ≠ [] ∧ v ≠ [] then
      { acc with envVars := setVar acc.envVars (String.mk k) (String.mk v) }
    else acc
  | none =>
    match env keyValue with
    | some v => { acc with envVars := setVar acc.envVars keyValue v }
    | none => { acc with warnings := acc.warnings ++ [penvWarn keyValue] }

/-- The `while` loop of `extractPenvArgs` (src/src/index.ts lines 33-64):
a `--penv` with a following token consumes both and processes the value; an
`--env-file` with a following token consumes both silently; every other
token (including a trailing flag with no following token) is copied to the
residual list. -/
def extractPenvAux (env : String → Option String) :
    List String → ExtractResult → ExtractResult
  | [], acc => acc
  | a :: rest, acc =>
    if a = "--penv" then
      match rest with
      | kv :: rest2 => extractPenvAux env rest2 (processPenv env acc kv)
      | [] => { acc with remainingArgs := acc.remainingArgs ++ [a] }
    else if a = "--env-file" then
      match rest with
      | _ :: rest2 => extractPenvAux env rest2 acc
      | [] => { acc with remainingArgs := acc.remainingArgs ++ [a] }
    else
      extractPenvAux env rest { acc with remainingArgs := acc.remainingArgs ++ [a] }

/-- `extractPenvArgs` (src/src/index.ts lines 26-67), with the ambient
process environment abstracted as a lookup function. -/
def extractPenvArgs (env : String → Option String) (args : List String) :
    ExtractResult :=
  extractPenvAux env args ⟨[], [], []⟩

/-- Result of one `dotenv.config` call: a load-failure indicator and an
optional parsed mapping (`DotenvConfigOutput`). -/
structure DotenvResult where
  error : Bool
  parsed : Option EnvMap
deriving DecidableEq, Repr

/-- The program's external collaborators: ambient environment lookup,
`dotenv.config` keyed by an optional explicit path (`none` is the default
`.env` load), the `path.dirname` / `path.basename` capabilities, and the
resolved wrangler binary path. -/
structure Collab where
  env : String → Option String
  fileLoad : Option String → DotenvResult
  dirname : String → String
  basename : String → String
  wranglerPath : String

/-- The overlay file path of src/src/index.ts lines 91-95: with a custom
base path, `dirname(p)/basename(p).envName`; otherwise `.env.envName`. -/
def envSpecificPathOf (c : Collab) (customEnvPath : Option String)
    (envName : String) : String :=
  match customEnvPath with
  | some p => c.dirname p ++ "/" ++ c.basename p ++ "." ++ envName
  | none => ".env." ++ envName

/-- The environment-specific overlay mapping of src/src/index.ts lines
89-102: loaded only when an environment name is given, and kept empty
(silently) when that load fails. -/
def overlayVars (c : Collab) (envName customEnvPath : Option String) : EnvMap :=
  match envName with
  | some e =>
    let r := c.fileLoad (some (envSpecificPathOf c customEnvPath e))
    if r.error then [] else r.parsed.getD []
  | none => []

/-- Output of the layered loader, instrumented with the list of load
requests issued and the console warnings/logs. -/
structure LoadOutput where
  vars : EnvMap
  requests : List (Option String)
  warnings : List String
  logs : List String
deriving DecidableEq, Repr

/-- `loadEnvFiles` (src/src/index.ts lines 70-109): load the base file
(custom path or default), warning on failure only in the custom-path branch
(the default-path warning is commented out in the source); then the overlay
when an environment name is given; merge overlay over base with object
spread. -/
def loadEnvFiles (c : Collab) (envName customEnvPath : Option String) :
    LoadOutput :=
  let baseEnv := c.fileLoad customEnvPath
  { vars := mergeEnv (baseEnv.parsed.getD []) (overlayVars c envName customEnvPath)
    requests :=
      match envName with
      | some e => [customEnvPath, some (envSpecificPathOf c customEnvPath e)]
      | none => [customEnvPath]
    warnings :=
      match customEnvPath with
      | some p =>
        if baseEnv.error then ["Warning: Could not load env file at " ++ p] else []
      | none => []
    logs :=
      (match customEnvPath with
       | some p =>
         if baseEnv.error then [] else ["Loaded environment variables from " ++ p]
       | none => []) ++
      (match envName with
       | some e =>
         if (c.fileLoad (some (envSpecificPathOf c customEnvPath e))).error then []
         else ["Loaded environment variables from " ++ envSpecificPathOf c customEnvPath e]
       | none => []) }

/-- A single quote character as a string (the wrapper the synthesizer puts
around each JSON-encoded value). -/
def squote : String := String.mk [Char.ofNat 39]

/-- Hexadecimal digit characters, lowercase, as produced by
`JSON.stringify` unicode escapes. -/
def hexDigitChar (n : Nat) : Char :=
  if n < 10 then Char.ofNat (48 + n) else Char.ofNat (87 + n)

/-- The escape of one character under `JSON.stringify` string quoting:
quote and backslash get two-character escapes, the five named control
characters get their short escapes, every other control character below
0x20 gets a `u00xx` escape, and everything else is emitted literally. -/
def jsonEscapeChar (c : Char) : List Char :=
  if c = '"' then ['\\', '"']
  else if c = '\\' then ['\\', '\\']
  else if c = Char.ofNat 8 then ['\\', 'b']
  else if c = Char.ofNat 9 then ['\\', 't']
  else if c = Char.ofNat 10 then ['\\', 'n']
  else if c = Char.ofNat 12 then ['\\', 'f']
  else if c = Char.ofNat 13 then ['\\', 'r']
  else if c.toNat < 32 then
    ['\\', 'u', '0', '0', hexDigitChar (c.toNat / 16), hexDigitChar (c.toNat % 16)]
  else [c]

/-- `JSON.stringify` applied to a string value: the escaped characters
wrapped in double quotes. -/
def jsonStringify (s : String) : String :=
  String.mk ('"' :: s.data.flatMap jsonEscapeChar ++ ['"'])

/-- One synthesized substitution flag group of src/src/index.ts lines
156-161: always the bare property accessor, with the value JSON-encoded and
wrapped in single quotes. -/
def defineArg (k v : String) : String :=
  "--define process.env." ++ k ++ ":" ++ squote ++ jsonStringify v ++ squote

/-- `defineArgs` (src/src/index.ts lines 156-161): one flag group per entry
of the merged mapping, in iteration (insertion) order, joined by spaces. -/
def defineArgs (m : EnvMap) : String :=
  String.intercalate " " (m.map (fun p => defineArg p.1 p.2))

/-- The run record of one invocation: the constructed command string, the
final merged variable mapping (the synthesizer input), the file-load
requests issued, and console warnings/logs. -/
structure RunResult where
  fullCommand : String
  vars : EnvMap
  loadRequests : List (Option String)
  warnings : List String
  logs : List String
deriving DecidableEq, Repr

/-- The dispatcher (src/src/index.ts lines 112-183) over the post-program
arguments `process.argv.slice(2)`: a missing or unrecognized subcommand is
forwarded verbatim; `dev` / `deploy` run extraction, classification on the
residual list (`--env`) and the original arguments (`--env-file`), the
layered loader, the override merge, and the synthesizer. -/
def wangler (c : Collab) (argv2 : List String) : RunResult :=
  match argv2 with
  | [] =>
    { fullCommand := "node " ++ c.wranglerPath ++ " " ++ String.intercalate " " argv2
      vars := [], loadRequests := [], warnings := [], logs := [] }
  | command :: additionalArgs =>
    if command = "dev" ∨ command = "deploy" then
      let ex := extractPenvArgs c.env additionalArgs
      let envName := getEnvFromArgs ex.remainingArgs
      let customEnvPath := getEnvFilePath additionalArgs
      let lo := loadEnvFiles c envName customEnvPath
      let allEnvVars := mergeEnv lo.vars ex.envVars
      { fullCommand :=
          "node " ++ c.wranglerPath ++ " " ++ command ++ " " ++
            defineArgs allEnvVars ++ " " ++ String.intercalate " " ex.remainingArgs
        vars := allEnvVars
        loadRequests := lo.requests
        warnings := ex.warnings ++ lo.warnings
        logs := lo.logs }
    else
      { fullCommand := "node " ++ c.wranglerPath ++ " " ++ String.intercalate " " argv2
        vars := [], loadRequests := [], warnings := [], logs := [] }

/-- The identifier classifier of the repository
(`isValidJSIdentifier`, src/unnamed/part_001 lines 254-256): the start
character class of the regex `[a-zA-Z_$]`. -/
def isIdentStart (c : Char) : Bool :=
  decide ((97 ≤ c.toNat ∧ c.toNat ≤ 122) ∨ (65 ≤ c.toNat ∧ c.toNat ≤ 90) ∨
    c = '_' ∨ c = '$')

/-- Continuation character class of the regex `[a-zA-Z0-9_$]`. -/
def isIdentCont (c : Char) : Bool :=
  isIdentStart c || decide (48 ≤ c.toNat ∧ c.toNat ≤ 57)

/-- `isValidJSIdentifier` (src/unnamed/part_001 lines 254-256): full match
of `[a-zA-Z_$][a-zA-Z0-9_$]*` against the whole name. -/
def isValidJSIdentifier (s : String) : Bool :=
  match s.data with
  | [] => false
  | c :: rest => isIdentStart c && rest.all isIdentCont

/-- `extractDefineArgs` (src/unnamed/part_001 lines 253-273), the test
suite's synthesizer: accessor form selected per `isValidJSIdentifier`, with
`process.env`, `import.meta.env` and `--var` groups per entry. -/
def extractDefineArgs (envVars : EnvMap) : String :=
  String.intercalate " " (envVars.map (fun p =>
    let processEnvAccess :=
      if isValidJSIdentifier p.1 then "process.env." ++ p.1
      else "process.env[\"" ++ p.1 ++ "\"]"
    let importMetaAccess :=
      if isValidJSIdentifier p.1 then "import.meta.env." ++ p.1
      else "import.meta.env[\"" ++ p.1 ++ "\"]"
    "--define " ++ processEnvAccess ++ ":" ++ squote ++ jsonStringify p.2 ++
      squote ++ " --define " ++ importMetaAccess ++ ":" ++ squote ++
      jsonStringify p.2 ++ squote ++ " --var " ++ p.1 ++ ":" ++ jsonStringify p.2))

/-- The residual list as the specification words it (spec section 4.2): walk
the tokens; a `--penv` or `--env-file` with a following value token is
consumed as a pair; every other token is kept. Written from the spec, to be
compared with the source function `extractPenvArgs`. -/
def residualSpec : List String → List String
  | [] => []
  | a :: rest =>
    if a = "--penv" then
      match rest with
      | _ :: rest2 => residualSpec rest2
      | [] => [a]
    else if a = "--env-file" then
      match rest with
      | _ :: rest2 => residualSpec rest2
      | [] => [a]
    else a :: residualSpec rest

/-- Modelled from the spec: decoding of a JSON string literal
(`JSON.parse` on the string-literal fragment is a JavaScript builtin, not
repository code).  Consumes body characters up to an unescaped closing
quote, handling the simple escapes and `uXXXX` escapes of the JSON grammar;
surrogate escape values are rejected (they cannot occur in the output of
`JSON.stringify` on scalar text). Returns the decoded content and the
remainder after the closing quote. -/
def parseBody : List Char → Option (List Char × List Char)
  | [] => none
  | c :: rest =>
    if c = '"' then some ([], rest)
    else if c = '\\' then
      match rest with
      | [] => none
      | e :: rest2 =>
        if e = 'u' then
          match rest2 with
          | h1 :: h2 :: h3 :: h4 :: rest3 =>
            match hexVal h1, hexVal h2, hexVal h3, hexVal h4 with
            | some a, some b, some c2, some d =>
              let n := ((a * 16 + b) * 16 + c2) * 16 + d
              if 55296 ≤ n ∧ n ≤ 57343 then none
              else
                match parseBody rest3 with
                | some (cs, rem) => some (Char.ofNat n :: cs, rem)
                | none => none
            | _, _, _, _ => none
          | _ => none
        else
          match simpleUnescape e with
          | some ch =>
            match parseBody rest2 with
            | some (cs, rem) => some (ch :: cs, rem)
            | none => none
          | none => none
    else if c.toNat < 32 then none
    else
      match parseBody rest with
      | some (cs, rem) => some (c :: cs, rem)
      | none => none
where
  /-- Value of one hexadecimal digit, either case. -/
  hexVal (c : Char) : Option Nat :=
    if 48 ≤ c.toNat ∧ c.toNat ≤ 57 then some (c.toNat - 48)
    else if 97 ≤ c.toNat ∧ c.toNat ≤ 102 then some (c.toNat - 87)
    else if 65 ≤ c.toNat ∧ c.toNat ≤ 70 then some (c.toNat - 55)
    else none
  /-- The simple two-character escapes of the JSON grammar. -/
  simpleUnescape (e : Char) : Option Char :=
    if e = '"' then some '"'
    else if e = '\\' then some '\\'
    else if e = '/' then some '/'
    else if e = 'b' then some (Char.ofNat 8)
    else if e = 'f' then some (Char.ofNat 12)
    else if e = 'n' then some (Char.ofNat 10)
    else if e = 'r' then some (Char.ofNat 13)
    else if e = 't' then some (Char.ofNat 9)
    else none

/-- Modelled from the spec: a whole JSON string literal at the character
level — an opening quote, a body, a closing quote, and nothing after. -/
def parseStringLitChars (l : List Char) : Option (List Char) :=
  match l with
  | c :: rest =>
    if c = '"' then
      match parseBody rest with
      | some (cs, []) => some cs
      | _ => none
    else none
  | [] => none

/-- Modelled from the spec: decoding of a whole JSON string literal
(`JSON.parse` restricted to string literals). -/
def jsonParseStringLit (s : String) : Option String :=
  (parseStringLitChars s.data).map String.mk

/-- First-of-two option choice, the shape of layered lookups. -/
def firstSome (x y : Option String) : Option String :=
  match x with
  | some v => some v
  | none => y

theorem keysOf_cons (p : String × String) (rest : EnvMap) :
    keysOf (p :: rest) = p.1 :: keysOf rest := rfl

theorem lookupE_setVar (m : EnvMap) (k v k2 : String) :
    lookupE (setVar m k v) k2 = if k2 = k then some v else lookupE m k2 := by
  induction m with
  | nil => simp [setVar, lookupE]
  | cons p rest ih =>
    obtain ⟨pk, pv⟩ := p
    by_cases h : pk = k
    · subst h
      by_cases h2 : k2 = pk <;> simp [setVar, lookupE, h2]
    · by_cases h2 : k2 = pk
      · subst h2
        simp [setVar, lookupE, h, fun hc : k2 = k => h hc]
      · simp [setVar, lookupE, h, h2, ih]

theorem lookupE_eq_none_of_not_mem (m : EnvMap) (k : String)
    (h : k ∉ keysOf m) : lookupE m k = none := by
  induction m with
  | nil => rfl
  | cons p rest ih =>
    rw [keysOf_cons, List.mem_cons] at h
    push_neg at h
    simp [lookupE, h.1, ih h.2]

theorem mem_keysOf_setVar (m : EnvMap) (k v x : String) :
    x ∈ keysOf (setVar m k v) ↔ x ∈ keysOf m ∨ x = k := by
  induction m with
  | nil => simp [setVar, keysOf]
  | cons p rest ih =>
    obtain ⟨pk, pv⟩ := p
    by_cases h : pk = k
    · subst h
      rw [show setVar ((pk, pv) :: rest) pk v = (pk, v) :: rest by simp [setVar]]
      simp only [keysOf_cons, List.mem_cons]
      tauto
    · rw [show setVar ((pk, pv) :: rest) k v = (pk, pv) :: setVar rest k v by
        simp [setVar, h]]
      simp only [keysOf_cons, List.mem_cons, ih]
      tauto

theorem nodup_keysOf_setVar (m : EnvMap) (k v : String)
    (h : (keysOf m).Nodup) : (keysOf (setVar m k v)).Nodup := by
  induction m with
  | nil => simp [setVar, keysOf]
  | cons p rest ih =>
    obtain ⟨pk, pv⟩ := p
    rw [keysOf_cons, List.nodup_cons] at h
    by_cases hk : pk = k
    · subst hk
      rw [show setVar ((pk, pv) :: rest) pk v = (pk, v) :: rest by simp [setVar]]
      rw [keysOf_cons, List.nodup_cons]
      exact ⟨h.1, h.2⟩
    · rw [show setVar ((pk, pv) :: rest) k v = (pk, pv) :: setVar rest k v by
        simp [setVar, hk]]
      rw [keysOf_cons, List.nodup_cons]
      refine ⟨?_, ih h.2⟩
      intro hc
      rcases (mem_keysOf_setVar rest k v pk).mp hc with h1 | h1
      · exact h.1 h1
      · exact hk h1

theorem lookupE_mergeEnv (b : EnvMap) (hb : (keysOf b).Nodup) :
    ∀ (a : EnvMap) (k : String),
      lookupE (mergeEnv a b) k = firstSome (lookupE b k) (lookupE a k) := by
  induction b with
  | nil => intro a k; simp [mergeEnv, lookupE, firstSome]
  | cons p rest ih =>
    intro a k
    obtain ⟨pk, pv⟩ := p
    rw [keysOf_cons, List.nodup_cons] at hb
    have step : mergeEnv a ((pk, pv) :: rest) = mergeEnv (setVar a pk pv) rest := rfl
    rw [step, ih hb.2]
    by_cases hk : k = pk
    · subst hk
      have hnone : lookupE rest k = none :=
        lookupE_eq_none_of_not_mem rest k hb.1
      simp [hnone, lookupE, firstSome, lookupE_setVar]
    · simp only [lookupE, hk, if_neg, not_false_iff]
      cases hlr : lookupE rest k with
      | some v => simp [firstSome]
      | none => simp [firstSome, lookupE_setVar, hk]

theorem extractPenvAux_penv_pair (env : String → Option String) (kv : String)
    (rest : List String) (acc : ExtractResult) :
    extractPenvAux env ("--penv" :: kv :: rest) acc =
      extractPenvAux env rest (processPenv env acc kv) := by
  simp [extractPenvAux]

theorem extractPenvAux_penv_last (env : String → Option String)
    (acc : ExtractResult) :
    extractPenvAux env ["--penv"] acc =
      { acc with remainingArgs := acc.remainingArgs ++ ["--penv"] } := by
  simp [extractPenvAux]

theorem extractPenvAux_envfile_pair (env : String → Option String) (v : String)
    (rest : List String) (acc : ExtractResult) :
    extractPenvAux env ("--env-file" :: v :: rest) acc =
      extractPenvAux env rest acc := by
  simp [extractPenvAux]

theorem extractPenvAux_envfile_last (env : String → Option String)
    (acc : ExtractResult) :
    extractPenvAux env ["--env-file"] acc =
      { acc with remainingArgs := acc.remainingArgs ++ ["--env-file"] } := by
  simp [extractPenvAux]

theorem extractPenvAux_other (env : String → Option String) (a : String)
    (rest : List String) (acc : ExtractResult)
    (h1 : ¬a = "--penv") (h2 : ¬a = "--env-file") :
    extractPenvAux env (a :: rest) acc =
      extractPenvAux env rest
        { acc with remainingArgs := acc.remainingArgs ++ [a] } := by
  rw [extractPenvAux.eq_def]
  simp [h1, h2]

theorem residualSpec_penv_pair (v : String) (rest : List String) :
    residualSpec ("--penv" :: v :: rest) = residualSpec rest := by
  simp [residualSpec]

theorem residualSpec_envfile_pair (v : String) (rest : List String) :
    residualSpec ("--env-file" :: v :: rest) = residualSpec rest := by
  simp [residualSpec]

theorem residualSpec_other (a : String) (rest : List String)
    (h1 : ¬a = "--penv") (h2 : ¬a = "--env-file") :
    residualSpec (a :: rest) = a :: residualSpec rest := by
  rw [residualSpec.eq_def]
  simp [h1, h2]

theorem processPenv_remainingArgs (env : String → Option String)
    (acc : ExtractResult) (kv : String) :
    (processPenv env acc kv).remainingArgs = acc.remainingArgs := by
  unfold processPenv
  cases splitFirstColon kv.data with
  | some p =>
    obtain ⟨k, v⟩ := p
    by_cases h : k ≠ [] ∧ v ≠ [] <;> simp [h]
  | none => cases env kv <;> rfl

theorem processPenv_nodup (env : String → Option String)
    (acc : ExtractResult) (kv : String)
    (h : (keysOf acc.envVars).Nodup) :
    (keysOf (processPenv env acc kv).envVars).Nodup := by
  unfold processPenv
  cases splitFirstColon kv.data with
  | some p =>
    obtain ⟨k, v⟩ := p
    by_cases hkv : k ≠ [] ∧ v ≠ []
    · simpa [hkv] using nodup_keysOf_setVar _ _ _ h
    · simpa [hkv] using h
  | none =>
    cases env kv with
    | some v => exact nodup_keysOf_setVar _ _ _ h
    | none => exact h

theorem extractPenvAux_remainingArgs (env : String → Option String)
    (args : List String) (acc : ExtractResult) :
    (extractPenvAux env args acc).remainingArgs =
      acc.remainingArgs ++ residualSpec args := by
  induction args, acc using extractPenvAux.induct env with
  | case1 acc => simp [extractPenvAux, residualSpec]
  | case2 acc kv rest2 ih =>
    rw [extractPenvAux_penv_pair, residualSpec_penv_pair, ih,
      processPenv_remainingArgs]
  | case3 acc => rw [extractPenvAux_penv_last]; simp [residualSpec]
  | case4 acc v rest2 h1 ih =>
    rw [extractPenvAux_envfile_pair, residualSpec_envfile_pair, ih]
  | case5 acc h => rw [extractPenvAux_envfile_last]; simp [residualSpec]
  | case6 a rest acc h1 h2 ih =>
    rw [extractPenvAux_other env a rest acc h1 h2, residualSpec_other a rest h1 h2,
      ih]
    simp

theorem extractPenvAux_nodup (env : String → Option String)
    (args : List String) (acc : ExtractResult) :
    (keysOf acc.envVars).Nodup →
      (keysOf (extractPenvAux env args acc).envVars).Nodup := by
  induction args, acc using extractPenvAux.induct env with
  | case1 acc => intro h; simpa [extractPenvAux] using h
  | case2 acc kv rest2 ih =>
    intro h
    rw [extractPenvAux_penv_pair]
    exact ih (processPenv_nodup env acc kv h)
  | case3 acc => intro h; rw [extractPenvAux_penv_last]; exact h
  | case4 acc v rest2 h1 ih =>
    intro h
    rw [extractPenvAux_envfile_pair]
    exact ih h
  | case5 acc h => intro h2; rw [extractPenvAux_envfile_last]; exact h2
  | case6 a rest acc h1 h2 ih =>
    intro h
    rw [extractPenvAux_other env a rest acc h1 h2]
    exact ih h

theorem extractPenvArgs_nodup (env : String → Option String)
    (args : List String) :
    (keysOf (extractPenvArgs env args).envVars).Nodup :=
  extractPenvAux_nodup env args ⟨[], [], []⟩ (by simp [keysOf])

theorem residualSpec_sublist (args : List String) :
    List.Sublist (residualSpec args) args := by
  induction args using residualSpec.induct with
  | case1 => simp [residualSpec]
  | case2 v rest2 ih =>
    rw [residualSpec_penv_pair]
    exact ih.trans ((List.sublist_cons_self v rest2).trans
      (List.sublist_cons_self "--penv" (v :: rest2)))
  | case3 => simp [residualSpec]
  | case4 v rest2 h1 ih =>
    rw [residualSpec_envfile_pair]
    exact ih.trans ((List.sublist_cons_self v rest2).trans
      (List.sublist_cons_self "--env-file" (v :: rest2)))
  | case5 h1 => simp [residualSpec]
  | case6 a rest h1 h2 ih =>
    rw [residualSpec_other a rest h1 h2]
    exact ih.cons₂ a

theorem parseBody_quote (rest : List Char) :
    parseBody ('"' :: rest) = some ([], rest) := by
  rw [parseBody.eq_def]
  simp

theorem parseBody_simple_escape (e : Char) (rest : List Char) (hne : ¬e = 'u') :
    parseBody ('\\' :: e :: rest) =
      match parseBody.simpleUnescape e with
      | some ch =>
        match parseBody rest with
        | some (cs, rem) => some (ch :: cs, rem)
        | none => none
      | none => none := by
  rw [parseBody.eq_def]
  simp [hne]

theorem parseBody_unicode (h1 h2 h3 h4 : Char) (rest : List Char) :
    parseBody ('\\' :: 'u' :: h1 :: h2 :: h3 :: h4 :: rest) =
      match parseBody.hexVal h1, parseBody.hexVal h2, parseBody.hexVal h3,
          parseBody.hexVal h4 with
      | some a, some b, some c2, some d =>
        let n := ((a * 16 + b) * 16 + c2) * 16 + d
        if 55296 ≤ n ∧ n ≤ 57343 then none
        else
          match parseBody rest with
          | some (cs, rem) => some (Char.ofNat n :: cs, rem)
          | none => none
      | _, _, _, _ => none := by
  rfl

theorem parseBody_plain (c : Char) (rest : List Char) (hq : ¬c = '"')
    (hb : ¬c = '\\') (hc : ¬c.toNat < 32) :
    parseBody (c :: rest) =
      match parseBody rest with
      | some (cs, rem) => some (c :: cs, rem)
      | none => none := by
  rw [parseBody.eq_def]
  simp [hq, hb, hc]

theorem hexVal_hexDigitChar_fin :
    ∀ n : Fin 16, parseBody.hexVal (hexDigitChar n.val) = some n.val := by
  decide

theorem hexVal_hexDigitChar (n : Nat) (h : n < 16) :
    parseBody.hexVal (hexDigitChar n) = some n :=
  hexVal_hexDigitChar_fin ⟨n, h⟩

theorem parseBody_escape (l : List Char) (tail : List Char) :
    parseBody (l.flatMap jsonEscapeChar ++ '"' :: tail) = some (l, tail) := by
  induction l with
  | nil => simpa using parseBody_quote tail
  | cons c l ih =>
    rw [List.flatMap_cons, List.append_assoc]
    by_cases hq : c = '"'
    · subst hq
      rw [show jsonEscapeChar '"' = ['\\', '"'] by simp [jsonEscapeChar]]
      rw [show (['\\', '"'] : List Char) ++ (l.flatMap jsonEscapeChar ++ '"' :: tail) =
        '\\' :: '"' :: (l.flatMap jsonEscapeChar ++ '"' :: tail) from rfl]
      rw [parseBody_simple_escape _ _ (by decide), ih]
      rfl
    · by_cases hb : c = '\\'
      · subst hb
        rw [show jsonEscapeChar '\\' = ['\\', '\\'] by simp [jsonEscapeChar]]
        rw [show (['\\', '\\'] : List Char) ++ (l.flatMap jsonEscapeChar ++ '"' :: tail) =
          '\\' :: '\\' :: (l.flatMap jsonEscapeChar ++ '"' :: tail) from rfl]
        rw [parseBody_simple_escape _ _ (by decide), ih]
        rfl
      · by_cases h8 : c = Char.ofNat 8
        · subst h8
          rw [show jsonEscapeChar (Char.ofNat 8) = ['\\', 'b'] by simp [jsonEscapeChar]]
          rw [show (['\\', 'b'] : List Char) ++ (l.flatMap jsonEscapeChar ++ '"' :: tail) =
            '\\' :: 'b' :: (l.flatMap jsonEscapeChar ++ '"' :: tail) from rfl]
          rw [parseBody_simple_escape _ _ (by decide), ih]
          rfl
        · by_cases h9 : c = Char.ofNat 9
          · subst h9
            rw [show jsonEscapeChar (Char.ofNat 9) = ['\\', 't'] by
              simp [jsonEscapeChar]]
            rw [show (['\\', 't'] : List Char) ++ (l.flatMap jsonEscapeChar ++ '"' :: tail) =
              '\\' :: 't' :: (l.flatMap jsonEscapeChar ++ '"' :: tail) from rfl]
            rw [parseBody_simple_escape _ _ (by decide), ih]
            rfl
          · by_cases h10 : c = Char.ofNat 10
            · subst h10
              rw [show jsonEscapeChar (Char.ofNat 10) = ['\\', 'n'] by
                simp [jsonEscapeChar]]
              rw [show (['\\', 'n'] : List Char) ++ (l.flatMap jsonEscapeChar ++ '"' :: tail) =
                '\\' :: 'n' :: (l.flatMap jsonEscapeChar ++ '"' :: tail) from rfl]
              rw [parseBody_simple_escape _ _ (by decide), ih]
              rfl
            · by_cases h12 : c = Char.ofNat 12
              · subst h12
                rw [show jsonEscapeChar (Char.ofNat 12) = ['\\', 'f'] by
                  simp [jsonEscapeChar]]
                rw [show (['\\', 'f'] : List Char) ++ (l.flatMap jsonEscapeChar ++ '"' :: tail) =
                  '\\' :: 'f' :: (l.flatMap jsonEscapeChar ++ '"' :: tail) from rfl]
                rw [parseBody_simple_escape _ _ (by decide), ih]
                rfl
              · by_cases h13 : c = Char.ofNat 13
                · subst h13
                  rw [show jsonEscapeChar (Char.ofNat 13) = ['\\', 'r'] by
                    simp [jsonEscapeChar]]
                  rw [show (['\\', 'r'] : List Char) ++ (l.flatMap jsonEscapeChar ++ '"' :: tail) =
                    '\\' :: 'r' :: (l.flatMap jsonEscapeChar ++ '"' :: tail) from rfl]
                  rw [parseBody_simple_escape _ _ (by decide), ih]
                  rfl
                · by_cases hlow : c.toNat < 32
                  · rw [show jsonEscapeChar c =
                      ['\\', 'u', '0', '0', hexDigitChar (c.toNat / 16),
                        hexDigitChar (c.toNat % 16)] by
                      simp [jsonEscapeChar, hq, hb, h8, h9, h10, h12, h13, hlow]]
                    rw [show (['\\', 'u', '0', '0', hexDigitChar (c.toNat / 16),
                        hexDigitChar (c.toNat % 16)] : List Char) ++
                        (l.flatMap jsonEscapeChar ++ '"' :: tail) =
                      '\\' :: 'u' :: '0' :: '0' :: hexDigitChar (c.toNat / 16) ::
                        hexDigitChar (c.toNat % 16) ::
                        (l.flatMap jsonEscapeChar ++ '"' :: tail) from rfl]
                    rw [parseBody_unicode]
                    have hdiv : c.toNat / 16 < 16 := by omega
                    have hmod : c.toNat % 16 < 16 := Nat.mod_lt _ (by omega)
                    rw [show parseBody.hexVal '0' = some 0 from by decide,
                      hexVal_hexDigitChar _ hdiv, hexVal_hexDigitChar _ hmod]
                    have hn : ((0 * 16 + 0) * 16 + c.toNat / 16) * 16 + c.toNat % 16 =
                        c.toNat := by omega
                    simp only [hn]
                    rw [if_neg (by omega)]
                    rw [ih, Char.ofNat_toNat]
                  · rw [show jsonEscapeChar c = [c] by
                      simp [jsonEscapeChar, hq, hb, h8, h9, h10, h12, h13, hlow]]
                    rw [show ([c] : List Char) ++ (l.flatMap jsonEscapeChar ++ '"' :: tail) =
                      c :: (l.flatMap jsonEscapeChar ++ '"' :: tail) from rfl]
                    rw [parseBody_plain c _ hq hb hlow, ih]

theorem jsonParseStringLit_jsonStringify (v : String) :
    jsonParseStringLit (jsonStringify v) = some v := by
  show (parseStringLitChars
    ('"' :: (v.data.flatMap jsonEscapeChar ++ ['"']))).map String.mk = some v
  rw [show parseStringLitChars ('"' :: (v.data.flatMap jsonEscapeChar ++ ['"'])) =
      (match parseBody (v.data.flatMap jsonEscapeChar ++ '"' :: []) with
       | some (cs, []) => some cs
       | _ => none) from by simp [parseStringLitChars]]
  rw [parseBody_escape]
  cases v
  rfl

theorem lookupE_mergeEnv_none (P : EnvMap) :
    ∀ (dotenv : EnvMap) (k : String), lookupE P k = none →
      lookupE dotenv k = none → lookupE (mergeEnv dotenv P) k = none := by
  induction P with
  | nil => intro dotenv k _ hd; exact hd
  | cons p P2 ih =>
    intro dotenv k hP hd
    obtain ⟨pk, pv⟩ := p
    have hk : ¬k = pk := by
      intro hc
      simp [lookupE, hc] at hP
    rw [lookupE] at hP
    rw [if_neg hk] at hP
    have step : mergeEnv dotenv ((pk, pv) :: P2) =
        mergeEnv (setVar dotenv pk pv) P2 := rfl
    rw [step]
    exact ih (setVar dotenv pk pv) k hP (by rw [lookupE_setVar, if_neg hk]; exact hd)

/-- C1: in the recognized-subcommand pipeline, the final merged mapping
obeys the precedence base-file < environment-overlay-file < command-line
overrides: an override binding for a key always wins, an overlay binding
wins over the base when no override binds the key, and a key bound by
neither override nor overlay resolves to its base-file binding. -/
theorem precedence_of_final_mapping (c : Collab) (cmd : String)
    (rest : List String) (k : String)
    (hcmd : cmd = "dev" ∨ cmd = "deploy")
    (hO : (keysOf (overlayVars c
      (getEnvFromArgs (extractPenvArgs c.env rest).remainingArgs)
      (getEnvFilePath rest))).Nodup) :
    (∀ v, lookupE (extractPenvArgs c.env rest).envVars k = some v →
      lookupE (wangler c (cmd :: rest)).vars k = some v) ∧
    (lookupE (extractPenvArgs c.env rest).envVars k = none →
      ∀ v, lookupE (overlayVars c
          (getEnvFromArgs (extractPenvArgs c.env rest).remainingArgs)
          (getEnvFilePath rest)) k = some v →
        lookupE (wangler c (cmd :: rest)).vars k = some v) ∧
    (lookupE (extractPenvArgs c.env rest).envVars k = none →
      lookupE (overlayVars c
          (getEnvFromArgs (extractPenvArgs c.env rest).remainingArgs)
          (getEnvFilePath rest)) k = none →
      lookupE (wangler c (cmd :: rest)).vars k =
        lookupE ((c.fileLoad (getEnvFilePath rest)).parsed.getD []) k) := by
  have hvars : (wangler c (cmd :: rest)).vars =
      mergeEnv
        (mergeEnv ((c.fileLoad (getEnvFilePath rest)).parsed.getD [])
          (overlayVars c
            (getEnvFromArgs (extractPenvArgs c.env rest).remainingArgs)
            (getEnvFilePath rest)))
        (extractPenvArgs c.env rest).envVars := by
    rcases hcmd with h | h <;> subst h <;> rfl
  have hP := extractPenvArgs_nodup c.env rest
  rw [hvars, lookupE_mergeEnv _ hP]
  rw [lookupE_mergeEnv _ hO]
  refine ⟨?_, ?_, ?_⟩
  · intro v hv; simp [hv, firstSome]
  · intro hpn v hv; simp [hpn, hv, firstSome]
  · intro hpn hon; simp [hpn, hon, firstSome]

/-- Witness for C1 at a concrete collaborator: base binds A and K, overlay
binds K and D, an inline override binds K; the final mapping takes the
override value for K, the overlay value for D, and the base value for A. -/
theorem precedence_of_final_mapping_witness :
    lookupE (wangler
      ⟨fun _ => none,
       fun req =>
         match req with
         | none => ⟨false, some [("A", "base-a"), ("K", "base-k")]⟩
         | some _ => ⟨false, some [("K", "over-k"), ("D", "over-d")]⟩,
       id, id, "w"⟩
      ["dev", "--env", "production", "--penv", "K:cli-k"]).vars "K" =
        some "cli-k" ∧
    lookupE (wangler
      ⟨fun _ => none,
       fun req =>
         match req with
         | none => ⟨false, some [("A", "base-a"), ("K", "base-k")]⟩
         | some _ => ⟨false, some [("K", "over-k"), ("D", "over-d")]⟩,
       id, id, "w"⟩
      ["dev", "--env", "production", "--penv", "K:cli-k"]).vars "D" =
        some "over-d" ∧
    lookupE (wangler
      ⟨fun _ => none,
       fun req =>
         match req with
         | none => ⟨false, some [("A", "base-a"), ("K", "base-k")]⟩
         | some _ => ⟨false, some [("K", "over-k"), ("D", "over-d")]⟩,
       id, id, "w"⟩
      ["dev", "--env", "production", "--penv", "K:cli-k"]).vars "A" =
        some "base-a" := by
  refine ⟨?_, ?_, ?_⟩
  · exact ((precedence_of_final_mapping _ "dev"
      ["--env", "production", "--penv", "K:cli-k"] "K" (Or.inl rfl)
      (by decide)).1 "cli-k" (by decide))
  · exact ((precedence_of_final_mapping _ "dev"
      ["--env", "production", "--penv", "K:cli-k"] "D" (Or.inl rfl)
      (by decide)).2.1 (by decide) "over-d" (by decide))
  · refine ((precedence_of_final_mapping _ "dev"
      ["--env", "production", "--penv", "K:cli-k"] "A" (Or.inl rfl)
      (by decide)).2.2 (by decide) (by decide)).trans (by decide)

/-- C2: the residual list returned by the override extractor equals the
specification's description — the original tokens minus each consumed
`--penv` flag/value pair and each consumed `--env-file` flag/value pair
(a pair is consumed only when the flag has a following value token) — and
it is a sublist of the input, so the surviving tokens keep their original
relative order. -/
theorem residual_exact_and_ordered (env : String → Option String)
    (args : List String) :
    (extractPenvArgs env args).remainingArgs = residualSpec args ∧
    List.Sublist (extractPenvArgs env args).remainingArgs args := by
  have h : (extractPenvArgs env args).remainingArgs = residualSpec args := by
    have h2 := extractPenvAux_remainingArgs env args ⟨[], [], []⟩
    simpa using h2
  exact ⟨h, h ▸ residualSpec_sublist args⟩

/-- C3: evidence of the divergence between the shipped synthesizer and the
identifier classifier.  The classifier (embedded from the repository's own
test helper) gives the four values the claim states, and the test helper
`extractDefineArgs` uses the bracket accessor for `my-special-var`; but the
shipped `defineArgs` (src/src/index.ts lines 156-161) emits the bare
property accessor `process.env.my-special-var` for that same key,
never consulting the classifier. -/
theorem synthesizer_ignores_classifier :
    isValidJSIdentifier "API_KEY" = true ∧
    isValidJSIdentifier "my-special-var" = false ∧
    isValidJSIdentifier "123invalid" = false ∧
    isValidJSIdentifier "$valid" = true ∧
    defineArgs [("my-special-var", "x")] =
      "--define process.env.my-special-var:" ++ squote ++ "\"x\"" ++ squote ∧
    extractDefineArgs [("my-special-var", "x")] =
      "--define process.env[\"my-special-var\"]:" ++ squote ++ "\"x\"" ++
        squote ++ " --define import.meta.env[\"my-special-var\"]:" ++ squote ++
        "\"x\"" ++ squote ++ " --var my-special-var:\"x\"" := by
  refine ⟨by decide, by decide, by decide, by decide, by decide, by decide⟩

/-- C4: the flag group emitted for a value `v` embeds the JSON string
literal `jsonStringify v`, and decoding that literal yields exactly `v`
again — the encoding round-trips for every text value, including values
with embedded quotes, control characters, unicode, or the empty string. -/
theorem synthesized_value_roundtrip (k v : String) :
    defineArg k v =
      "--define process.env." ++ k ++ ":" ++ squote ++ jsonStringify v ++
        squote ∧
    jsonParseStringLit (jsonStringify v) = some v :=
  ⟨rfl, jsonParseStringLit_jsonStringify v⟩

/-- C5: an invocation whose first post-program argument is missing or is
not `dev`/`deploy` is forwarded verbatim: the constructed command is the
program path followed by the original tokens, with no synthesized flags, no
merged variables, and no configuration file load requests. -/
theorem unrecognized_passthrough (c : Collab) (argv2 : List String)
    (h : ∀ cmd, argv2.head? = some cmd → ¬(cmd = "dev" ∨ cmd = "deploy")) :
    wangler c argv2 =
      { fullCommand := "node " ++ c.wranglerPath ++ " " ++
          String.intercalate " " argv2
        vars := [], loadRequests := [], warnings := [], logs := [] } := by
  cases argv2 with
  | nil => rfl
  | cons cmd rest =>
    have hc := h cmd rfl
    simp [wangler, hc]

/-- Witness for C5: the spec's example input, an unrecognized subcommand
with a flag, forwarded byte-for-byte with no loads and no variables. -/
theorem unrecognized_passthrough_witness :
    wangler ⟨fun _ => none, fun _ => ⟨false, none⟩, id, id, "wp"⟩
      ["dev-unknown", "--flag"] =
      ⟨"node wp dev-unknown --flag", [], [], [], []⟩ := by
  have h := unrecognized_passthrough
    ⟨fun _ => none, fun _ => ⟨false, none⟩, id, id, "wp"⟩
    ["dev-unknown", "--flag"] (by decide)
  rw [h]
  decide

/-- C6 counterexample: with the default base file (no `--env-file`), a base
load failure produces no warning at all — the default-path warning is
commented out in src/src/index.ts lines 84-86 — refuting the claim that
every base-file load failure warns. -/
theorem base_failure_silent_on_default_path :
    (loadEnvFiles ⟨fun _ => none, fun _ => ⟨true, none⟩, id, id, "w"⟩
      none none).warnings = [] ∧
    ((⟨fun _ => none, fun _ => ⟨true, none⟩, id, id, "w"⟩ : Collab).fileLoad
      none).error = true := by
  constructor
  · rfl
  · rfl

/-- C6 as amended: a base-file load failure warns only when a custom path
was given (`Warning: Could not load env file at <path>`) and is silent for
the default base file; an overlay load failure is always silent and leaves
the overlay empty; a failed base layer contributes nothing; and the loader
always returns the overlay-over-base merge — it never fails. -/
theorem loader_failure_handling (c : Collab) (envName : Option String)
    (p : String) (cp : Option String) :
    ((loadEnvFiles c envName (some p)).warnings =
      if (c.fileLoad (some p)).error then
        ["Warning: Could not load env file at " ++ p]
      else []) ∧
    ((loadEnvFiles c envName none).warnings = []) ∧
    ((c.fileLoad cp).parsed = none → (loadEnvFiles c none cp).vars = []) ∧
    (∀ e, (c.fileLoad (some (envSpecificPathOf c cp e))).error = true →
      (loadEnvFiles c (some e) cp).vars =
        mergeEnv ((c.fileLoad cp).parsed.getD []) []) ∧
    ((loadEnvFiles c envName cp).vars =
      mergeEnv ((c.fileLoad cp).parsed.getD []) (overlayVars c envName cp)) := by
  refine ⟨?_, ?_, ?_, ?_, rfl⟩
  · cases h : (c.fileLoad (some p)).error <;> simp [loadEnvFiles, h]
  · rfl
  · intro h
    simp [loadEnvFiles, overlayVars, h, mergeEnv]
  · intro e h
    simp [loadEnvFiles, overlayVars, h]

/-- Witness for C6 as amended, at a collaborator whose every load fails:
the custom-path branch warns with the path in the message, and the
base-failure-with-no-overlay case yields the empty mapping. -/
theorem loader_failure_handling_witness :
    (loadEnvFiles ⟨fun _ => none, fun _ => ⟨true, none⟩, id, id, "w"⟩
      none (some "conf/.env")).warnings =
      ["Warning: Could not load env file at conf/.env"] ∧
    (loadEnvFiles ⟨fun _ => none, fun _ => ⟨true, none⟩, id, id, "w"⟩
      none (some "conf/.env")).vars = [] := by
  have h := loader_failure_handling
    ⟨fun _ => none, fun _ => ⟨true, none⟩, id, id, "w"⟩ none "conf/.env"
    (some "conf/.env")
  constructor
  · rw [h.1]
    decide
  · rw [h.2.2.1 rfl]

/-- C7 counterexample: with a bare `--penv K` whose key is absent from the
ambient environment but present in the base configuration file, the warning
is emitted and the override records nothing, yet the final merged mapping
does contain an entry for `K` (from the config layer) — refuting the
claim's assertion that the final mapping contains no entry for that key. -/
theorem unresolved_key_still_in_final_mapping :
    (wangler ⟨fun _ => none, fun _ => ⟨false, some [("K", "v")]⟩, id, id, "w"⟩
      ["dev", "--penv", "K"]).warnings = [penvWarn "K"] ∧
    lookupE (wangler
      ⟨fun _ => none, fun _ => ⟨false, some [("K", "v")]⟩, id, id, "w"⟩
      ["dev", "--penv", "K"]).vars "K" = some "v" := by
  constructor
  · decide
  · decide

/-- C7 as amended: a bare `--penv KEY` whose key the ambient environment
does not define makes the extractor emit the warning (which contains the
literal key name by construction) and record nothing from that token, and
the pipeline continues; the final merged mapping then has no entry for that
key provided no other source (config layer or another override) supplies
one. -/
theorem unresolved_key_warns_records_nothing (env : String → Option String)
    (acc : ExtractResult) (kv : String) (rest : List String)
    (h1 : splitFirstColon kv.data = none) (h2 : env kv = none) :
    extractPenvAux env ("--penv" :: kv :: rest) acc =
      extractPenvAux env rest
        { acc with warnings := acc.warnings ++ [penvWarn kv] } ∧
    penvWarn kv =
      "Warning: Environment variable " ++ kv ++ " not found in process.env" ∧
    (∀ dotenv P : EnvMap, lookupE P kv = none → lookupE dotenv kv = none →
      lookupE (mergeEnv dotenv P) kv = none) := by
  refine ⟨?_, rfl, fun dotenv P hP hd => lookupE_mergeEnv_none P dotenv kv hP hd⟩
  rw [extractPenvAux_penv_pair]
  congr 1
  unfold processPenv
  rw [h1, h2]

/-- Witness for C7 as amended, at the spec's `NONEXISTENT_KEY` example with
an empty ambient environment and empty other sources. -/
theorem unresolved_key_warns_records_nothing_witness :
    extractPenvAux (fun _ => none) ["--penv", "NONEXISTENT_KEY"] ⟨[], [], []⟩ =
      ⟨[], [], [penvWarn "NONEXISTENT_KEY"]⟩ ∧
    lookupE (mergeEnv [] []) "NONEXISTENT_KEY" = none := by
  have h := unresolved_key_warns_records_nothing (fun _ => none) ⟨[], [], []⟩
    "NONEXISTENT_KEY" [] (by decide) rfl
  constructor
  · rw [h.1]
    rfl
  · exact h.2.2 [] [] rfl rfl

/-- C8: on a recognized subcommand the run is exactly: command string built
as program path, subcommand, synthesized flag groups, then the residual
arguments, in that order; the environment name is classified on the
residual list while the config-file path is classified on the original
(pre-extraction) arguments; warnings are the extractor's followed by the
loader's. -/
theorem recognized_command_layout (c : Collab) (cmd : String)
    (rest : List String) (hcmd : cmd = "dev" ∨ cmd = "deploy") :
    wangler c (cmd :: rest) =
      { fullCommand := "node " ++ c.wranglerPath ++ " " ++ cmd ++ " " ++
          defineArgs (mergeEnv (loadEnvFiles c
            (getEnvFromArgs (extractPenvArgs c.env rest).remainingArgs)
            (getEnvFilePath rest)).vars (extractPenvArgs c.env rest).envVars) ++
          " " ++ String.intercalate " " (extractPenvArgs c.env rest).remainingArgs
        vars := mergeEnv (loadEnvFiles c
            (getEnvFromArgs (extractPenvArgs c.env rest).remainingArgs)
            (getEnvFilePath rest)).vars (extractPenvArgs c.env rest).envVars
        loadRequests := (loadEnvFiles c
            (getEnvFromArgs (extractPenvArgs c.env rest).remainingArgs)
            (getEnvFilePath rest)).requests
        warnings := (extractPenvArgs c.env rest).warnings ++ (loadEnvFiles c
            (getEnvFromArgs (extractPenvArgs c.env rest).remainingArgs)
            (getEnvFilePath rest)).warnings
        logs := (loadEnvFiles c
            (getEnvFromArgs (extractPenvArgs c.env rest).remainingArgs)
            (getEnvFilePath rest)).logs } := by
  rcases hcmd with h | h <;> subst h <;> rfl

/-- Witness for C8 at a concrete recognized invocation: `--env` is read
from the residual list, `--env-file custom.env` is read from the original
arguments (and consumed), and the command string lays out subcommand,
synthesized groups, then residual arguments. -/
theorem recognized_command_layout_witness :
    wangler ⟨fun _ => none,
      fun req =>
        match req with
        | some "custom.env" => ⟨false, some [("A", "1")]⟩
        | _ => ⟨true, none⟩,
      id, id, "w"⟩
      ["deploy", "--env-file", "custom.env", "--env", "prod", "--local"] =
      { fullCommand := "node w deploy --define process.env.A:" ++ squote ++
          "\"1\"" ++ squote ++ " --env prod --local"
        vars := [("A", "1")]
        loadRequests := [some "custom.env", some "custom.env/custom.env.prod"]
        warnings := []
        logs := ["Loaded environment variables from custom.env"] } := by
  have h := recognized_command_layout
    ⟨fun _ => none,
      fun req =>
        match req with
        | some "custom.env" => ⟨false, some [("A", "1")]⟩
        | _ => ⟨true, none⟩,
      id, id, "w"⟩
    "deploy" ["--env-file", "custom.env", "--env", "prod", "--local"]
    (Or.inr rfl)
  rw [h]
  decide

/-- C9 counterexample: in `["--penv", "--penv"]` the last token is `--penv`
with no following value, yet it is consumed as the value of the preceding
`--penv` (resolved against the ambient environment, warning emitted) and
never reaches the residual list — refuting the claim that a trailing
valueless flag is always copied to the residual list. -/
theorem trailing_flag_consumed_as_value :
    (extractPenvArgs (fun _ => none) ["--penv", "--penv"]).remainingArgs =
      [] ∧
    ¬"--penv" ∈
      (extractPenvArgs (fun _ => none) ["--penv", "--penv"]).remainingArgs := by
  constructor
  · decide
  · decide

/-- C9 as amended: a trailing `--penv` or `--env-file` with no following
value token that is reached in flag position (not consumed as the value of
a preceding flag) raises nothing and is copied to the residual list
unchanged, as an ordinary token, with the override mapping and warnings
untouched. -/
theorem trailing_flag_kept_in_residual (env : String → Option String)
    (acc : ExtractResult) (f : String)
    (hf : f = "--penv" ∨ f = "--env-file") :
    extractPenvAux env [f] acc =
      { acc with remainingArgs := acc.remainingArgs ++ [f] } := by
  rcases hf with h | h <;> subst h
  · exact extractPenvAux_penv_last env acc
  · exact extractPenvAux_envfile_last env acc

/-- Witness for C9 as amended: a lone trailing `--penv` is kept as an
ordinary residual token. -/
theorem trailing_flag_kept_in_residual_witness :
    extractPenvAux (fun _ => none) ["--penv"] ⟨[], [], []⟩ =
      ⟨[], ["--penv"], []⟩ := by
  have h := trailing_flag_kept_in_residual (fun _ => none) ⟨[], [], []⟩
    "--penv" (Or.inl rfl)
  rw [h]
  rfl

/-- C10: a `--penv` value token that contains the separator but has an
empty key part or an empty value part is consumed together with its flag
(neither token reaches the residual list) while recording no mapping entry
and emitting no warning — the extraction state passes through unchanged. -/
theorem empty_part_assignment_dropped (env : String → Option String)
    (acc : ExtractResult) (kv : String) (rest : List String)
    (k v : List Char) (hsplit : splitFirstColon kv.data = some (k, v))
    (hempty : k = [] ∨ v = []) :
    extractPenvAux env ("--penv" :: kv :: rest) acc =
      extractPenvAux env rest acc := by
  rw [extractPenvAux_penv_pair]
  congr 1
  unfold processPenv
  rw [hsplit]
  have hne : ¬(k ≠ [] ∧ v ≠ []) := by tauto
  simp only [hne, if_neg, not_false_iff]

/-- Witness for C10 at the empty-key token `:value` (and implicitly the
state-preservation consequence at the end of the argument list). -/
theorem empty_part_assignment_dropped_witness :
    extractPenvAux (fun _ => none) ["--penv", ":value"] ⟨[], [], []⟩ =
      ⟨[], [], []⟩ := by
  have h := empty_part_assignment_dropped (fun _ => none) ⟨[], [], []⟩
    ":value" [] [] "value".data (by decide) (Or.inl rfl)
  rw [h]
  rfl
